import Mathlib

/-!
Verification of the rotation & retention engine of `react-native-turbo-log`
(HarmonyOS side, `harmony/turbo_log/src/main/ets/TurboLog.ts`).

The TypeScript class `TurboLog` is a process-wide static logger.  We embed it
shallowly:

* JS strings (file names, paths, dates, messages) are `List Char`; JS
  `String.length` counts UTF-16 code units (`jsLength`), while the payload
  written to disk is the UTF-8 encoding (`utf8ByteLength`).
* JS numbers that hold sizes/indices/timestamps are `Nat` (the values in play
  are small non-negative integers; float precision is immaterial here).
* The `@ohos.file.fs` file store is an external collaborator.  Each fallible
  call is represented by an explicit outcome supplied to the function under
  test: `Except Unit α` for calls that may throw (`Except.error ()` models a
  thrown exception) and `Bool` for calls whose only observable outcome is
  throw / no-throw (`renameSync`, `unlinkSync`, the open/write/close block).
* Static mutable fields of the class become the record `LogState`, passed and
  returned explicitly.
-/

/-- JS string (sequence of Unicode scalar values). -/
abbrev JStr := List Char

/-- `LogLevel` enum of `types.ts`. -/
inductive LogLevel where
  | debug
  | info
  | warning
  | error
deriving DecidableEq

/-- `ConfigureOptions` of `types.ts`: every field optional. -/
structure ConfigureOptions where
  dailyRolling : Option Bool := none
  logsDirectory : Option JStr := none
  maximumFileSize : Option Nat := none
  maximumNumberOfFiles : Option Nat := none
  logPrefix : Option JStr := none
deriving DecidableEq

/-- `InternalConfig` of `types.ts`: defaults applied. -/
structure InternalConfig where
  dailyRolling : Bool
  logsDirectory : JStr
  maximumFileSize : Nat
  maximumNumberOfFiles : Nat
  logPrefix : JStr
deriving DecidableEq

/-- The static mutable fields of class `TurboLog`. -/
structure LogState where
  config : Option InternalConfig
  currentLogFile : JStr
  currentDate : JStr
  currentFileSize : Nat
  currentFileIndex : Nat
deriving DecidableEq

/-- Initial values of the static fields (`config = null`, empty strings, 0). -/
def initialState : LogState :=
  { config := none, currentLogFile := [], currentDate := [],
    currentFileSize := 0, currentFileIndex := 0 }

/-- `getLevelString` of `TurboLog.ts` (the enum is closed, so the source's
`default: 'INFO '` branch is unreachable for well-typed levels). -/
def getLevelString : LogLevel → JStr
  | .debug => "DEBUG".toList
  | .info => "INFO ".toList
  | .warning => "WARN ".toList
  | .error => "ERROR".toList

/-- The log entry built in `write`:
`[timestamp] [levelStr] [message]\n` (template literal with single spaces).
The timestamp `formatTimestamp(new Date())` is an input here. -/
def logEntryOf (ts : JStr) (level : LogLevel) (message : JStr) : JStr :=
  ts ++ ' ' :: getLevelString level ++ ' ' :: message ++ ['\n']

/-- UTF-16 code-unit count of one scalar value (JS `String.length` weight). -/
def utf16Len (c : Char) : Nat :=
  if c.toNat < 0x10000 then 1 else 2

/-- UTF-8 byte count of one scalar value. -/
def utf8Len (c : Char) : Nat :=
  if c.toNat < 0x80 then 1
  else if c.toNat < 0x800 then 2
  else if c.toNat < 0x10000 then 3
  else 4

/-- JS `content.length` (UTF-16 code units). -/
def jsLength (s : JStr) : Nat := (s.map utf16Len).sum

/-- Byte length of `new util.TextEncoder().encodeInto(content)` (UTF-8). -/
def utf8ByteLength (s : JStr) : Nat := (s.map utf8Len).sum

/-- The regex character class `\d` of the filename patterns. -/
def isDig (c : Char) : Bool := decide (48 ≤ c.toNat ∧ c.toNat ≤ 57)

/-- Numeric value of a decimal digit character. -/
def digVal (c : Char) : Nat := c.toNat - 48

/-- Decimal digit character for `d % 10`. -/
def digCh : Nat → Char
  | 0 => '0' | 1 => '1' | 2 => '2' | 3 => '3' | 4 => '4'
  | 5 => '5' | 6 => '6' | 7 => '7' | 8 => '8' | _ => '9'

/-- Digit-by-digit decimal rendering, structurally recursive on a fuel that
bounds the digit count (any `fuel ≥ n` is enough since `n / 10 < n`). -/
def decReprAux : Nat → Nat → List Char
  | 0, n => [digCh n]
  | fuel + 1, n =>
    if n < 10 then [digCh n]
    else decReprAux fuel (n / 10) ++ [digCh (n % 10)]

/-- Decimal representation of a `Nat`, as JS template interpolation
`${index}` renders a non-negative integer. -/
def decRepr (n : Nat) : List Char := decReprAux n n

/-- `parseInt(digits, 10)` on a digit string. -/
def digitsVal (ds : List Char) : Nat :=
  ds.foldl (fun a c => 10 * a + digVal c) 0

/-- The filename `.log` suffix. -/
def logSuffix : JStr := ".log".toList

/-- The suffix excluded by retention (`-latest.log`). -/
def latestSuffix : JStr := "-latest.log".toList

/-- `{prefix}-latest.log`, the live file name. -/
def latestName (pfx : JStr) : JStr := pfx ++ latestSuffix

/-- Index extraction of `findCurrentFileIndex`: first the anchored pattern
"dot, digits, .log at end", then the fallback "dash, digits, .log at end",
followed by `parseInt(match[1], 10)`.  Both regexes capture the maximal trailing digit
run immediately before the final `.log`, and require the character before
that run to be `.` (first pattern) or `-` (second); otherwise no match. -/
def parseIdx (file : JStr) : Option Nat :=
  if logSuffix.isSuffixOf file then
    let rstem := file.reverse.drop 4
    let run := rstem.takeWhile isDig
    let pre := (rstem.dropWhile isDig).head?
    if run ≠ [] ∧ (pre = some '.' ∨ pre = some '-') then some (digitsVal run.reverse)
    else none
  else none

/-- Rotated file name generated by `rotateLogFile`:
`{prefix}-{date}.{index}.log` when daily rolling, else `{prefix}-{index}.log`
(name only; the source prepends `{dir}/`). -/
def rotatedName (pfx : JStr) (daily : Bool) (date : JStr) (i : Nat) : JStr :=
  if daily then pfx ++ '-' :: (date ++ '.' :: (decRepr i ++ logSuffix))
  else pfx ++ '-' :: (decRepr i ++ logSuffix)

/-- The filter of the `findCurrentFileIndex` loop:
`file.startsWith(prefix) && file.endsWith('.log') && file !== prefix-latest.log`. -/
def keepFile (pfx : JStr) (file : JStr) : Bool :=
  pfx.isPrefixOf file && logSuffix.isSuffixOf file && decide (file ≠ latestName pfx)

/-- `InternalConfig` viewed again as options (what `reconfigure` passes). -/
def InternalConfig.toOptions (c : InternalConfig) : ConfigureOptions :=
  { dailyRolling := some c.dailyRolling,
    logsDirectory := some c.logsDirectory,
    maximumFileSize := some c.maximumFileSize,
    maximumNumberOfFiles := some c.maximumNumberOfFiles,
    logPrefix := some c.logPrefix }

namespace TurboLog

/-- Outcomes of the file-store calls made during recovery
(`initCurrentLogFile` / `findCurrentFileIndex`). -/
structure RecoveryFS where
  accessLive : Except Unit Bool
  statLive : Except Unit Nat
  listing : Except Unit (List JStr)

/-- Outcomes of the file-store calls made during retention cleanup
(`getLogFiles` + `statSync` + `unlinkSync`). -/
structure CleanupFS where
  accessDir : Except Unit Bool
  listing : Except Unit (List JStr)
  statMtime : JStr → Except Unit Nat
  unlinkOk : JStr → Bool

/-- Outcomes of the file-store calls made during `rotateLogFile`. -/
structure RotateFS where
  accessLive : Except Unit Bool
  renameOk : Bool
  cleanup : CleanupFS

/-- Outcomes of the file-store calls made during `write`. -/
structure WriteFS where
  rot : RotateFS
  appendOk : Bool

/-- Outcomes of the file-store calls made during `deleteLogFiles`. -/
structure DeleteFS where
  accessDir : Except Unit Bool
  listing : Except Unit (List JStr)
  unlinkOk : JStr → Bool
  recovery : RecoveryFS

/-- Loop body of `findCurrentFileIndex`: running `maxIndex` over the listing. -/
def findLoop (pfx : JStr) : List JStr → Nat → Nat
  | [], m => m
  | f :: fs, m =>
    findLoop pfx fs
      (if keepFile pfx f then
        match parseIdx f with
        | some i => if m < i then i else m
        | none => m
      else m)

/-- `findCurrentFileIndex` (the resulting `currentFileIndex`): scans
`fs.listFileSync(dir)`; on a thrown listing error `maxIndex` stays 0. -/
def findCurrentFileIndex (pfx : JStr) (listing : Except Unit (List JStr)) : Nat :=
  match listing with
  | .error _ => 0
  | .ok files => findLoop pfx files 0

/-- `initCurrentLogFile`: sets `currentLogFile`, recovers `currentFileSize`
from `accessSync`/`statSync` (0 on `false` or throw), then runs
`findCurrentFileIndex`. -/
def initCurrentLogFile (st : LogState) (fs : RecoveryFS) : LogState :=
  match st.config with
  | none => st
  | some c =>
    let cur := c.logsDirectory ++ '/' :: latestName c.logPrefix
    let size :=
      match fs.accessLive with
      | .ok true => (match fs.statLive with | .ok n => n | .error _ => 0)
      | .ok false => 0
      | .error _ => 0
    { st with currentLogFile := cur, currentFileSize := size,
              currentFileIndex := findCurrentFileIndex c.logPrefix fs.listing }

/-- Defaults of `configure`: `??` on each option. -/
def withDefaults (o : ConfigureOptions) : InternalConfig :=
  { dailyRolling := o.dailyRolling.getD false,
    logsDirectory := o.logsDirectory.getD [],
    maximumFileSize := o.maximumFileSize.getD (1024 * 1024),
    maximumNumberOfFiles := o.maximumNumberOfFiles.getD 5,
    logPrefix := o.logPrefix.getD "app".toList }

/-- `configure`: installs the config with defaults, resets date/index/size,
ensures the directory (no modelled state effect: `ensureLogsDirectory` only
touches the file store and swallows its errors) and recovers state.
`today` is `formatDate(new Date())`. -/
def configure (st : LogState) (o : ConfigureOptions) (today : JStr)
    (fs : RecoveryFS) : LogState :=
  let c := withDefaults o
  initCurrentLogFile
    { st with config := some c, currentDate := today,
              currentFileIndex := 0, currentFileSize := 0 } fs

/-- `reconfigure`: `configure(TurboLog.config)` when configured, else no-op. -/
def reconfigure (st : LogState) (today : JStr) (fs : RecoveryFS) : LogState :=
  match st.config with
  | none => st
  | some c => configure st c.toOptions today fs

/-- `getLogFiles`: every directory entry ending in `.log`, as `{dir}/{file}`,
in listing order; `[]` when unconfigured, when `accessSync(dir)` is false or
throws, or when `listFileSync` throws. -/
def getLogFiles (st : LogState) (accessDir : Except Unit Bool)
    (listing : Except Unit (List JStr)) : List JStr :=
  match st.config with
  | none => []
  | some c =>
    match accessDir with
    | .error _ => []
    | .ok false => []
    | .ok true =>
      match listing with
      | .error _ => []
      | .ok files =>
        (files.filter (fun f => logSuffix.isSuffixOf f)).map
          (fun f => c.logsDirectory ++ '/' :: f)

/-- One iteration of the `fileStats`-building loop of `cleanupOldLogFiles`:
a path ending in `-latest.log` is skipped, otherwise `statSync` is
attempted and a throw skips the path. -/
def statEntry (stat : JStr → Except Unit Nat) (f : JStr) : Option (JStr × Nat) :=
  if latestSuffix.isSuffixOf f then none
  else
    match stat f with
    | .ok m => some (f, m)
    | .error _ => none

/-- The `fileStats` list built by `cleanupOldLogFiles`: every `getLogFiles`
path not ending in `-latest.log` whose `statSync` succeeds, with its mtime
(paths whose stat throws are skipped). -/
def retentionCandidates (st : LogState) (fs : CleanupFS) : List (JStr × Nat) :=
  (getLogFiles st fs.accessDir fs.listing).filterMap (statEntry fs.statMtime)

/-- The `while (fileStats.length >= maximumNumberOfFiles)` loop: shift the
oldest entry and attempt `unlinkSync` on it (a throw is caught inside the
loop, so the iteration continues either way); returns the attempted
deletions in order.  Faithful to the source for `maxFiles ≥ 1`; for
`maxFiles = 0` the source loop never terminates (`length >= 0` always
holds), while this model stops when the list is exhausted. -/
def cleanupLoop (maxFiles : Nat) : List (JStr × Nat) → List JStr
  | [] => []
  | f :: rest =>
    if maxFiles ≤ (f :: rest).length then f.1 :: cleanupLoop maxFiles rest
    else []

/-- `cleanupOldLogFiles`: builds `fileStats`, sorts ascending by mtime
(`sort((a, b) => a.mtime - b.mtime)`, a stable sort), and runs the deletion
loop; result is the list of paths on which `unlinkSync` was attempted. -/
def cleanupOldLogFiles (st : LogState) (fs : CleanupFS) : List JStr :=
  match st.config with
  | none => []
  | some c =>
    cleanupLoop c.maximumNumberOfFiles
      ((retentionCandidates st fs).mergeSort (fun a b => a.2 ≤ b.2))

/-- The paths actually removed by cleanup: attempted deletions whose
`unlinkSync` did not throw. -/
def cleanupDeleted (st : LogState) (fs : CleanupFS) : List JStr :=
  (cleanupOldLogFiles st fs).filter fs.unlinkOk

/-- Disk effects of one `rotateLogFile` call: the path the live file was
renamed to (when the rename happened and did not throw) and the attempted
retention deletions. -/
structure RotEffect where
  renamedTo : Option JStr
  deletions : List JStr
deriving DecidableEq

/-- `rotateLogFile`: increments `currentFileIndex`, computes the rotated
name `{dir}/{rotatedName}`, renames the live file to it if it exists, resets
`currentFileSize`, and runs cleanup — all inside one `try`.  A throw of
`accessSync` or `renameSync` jumps to the `catch`: the already-performed
increment persists, but the size reset and the cleanup are skipped. -/
def rotateLogFile (st : LogState) (fs : RotateFS) : LogState × RotEffect :=
  match st.config with
  | none => (st, ⟨none, []⟩)
  | some c =>
    let st1 := { st with currentFileIndex := st.currentFileIndex + 1 }
    let newFileName :=
      c.logsDirectory ++ '/' ::
        rotatedName c.logPrefix c.dailyRolling st.currentDate (st.currentFileIndex + 1)
    match fs.accessLive with
    | .error _ => (st1, ⟨none, []⟩)
    | .ok liveExists =>
      if liveExists && !fs.renameOk then (st1, ⟨none, []⟩)
      else
        let st2 := { st1 with currentFileSize := 0 }
        (st2, ⟨if liveExists then some newFileName else none,
               cleanupOldLogFiles st2 fs.cleanup⟩)

/-- `checkAndRotate`: daily trigger (updating `currentDate` first), size
trigger, and at most one `rotateLogFile` call. -/
def checkAndRotate (st : LogState) (today : JStr) (fs : RotateFS) :
    LogState × RotEffect :=
  match st.config with
  | none => (st, ⟨none, []⟩)
  | some c =>
    let dailyTrig : Bool := c.dailyRolling && decide (today ≠ st.currentDate)
    let st1 := if dailyTrig then { st with currentDate := today } else st
    let sizeTrig : Bool :=
      decide (0 < c.maximumFileSize) && decide (c.maximumFileSize ≤ st.currentFileSize)
    if dailyTrig || sizeTrig then rotateLogFile st1 fs else (st1, ⟨none, []⟩)

/-- `writeToFile`: guard on config and non-empty `currentLogFile`
(empty string is falsy); on a successful open/write/close block the size
counter grows by `content.length` (UTF-16 code units, while the bytes on
disk grew by the UTF-8 length); a throw anywhere in the block leaves the
state unchanged. -/
def writeToFile (st : LogState) (content : JStr) (appendOk : Bool) : LogState :=
  match st.config with
  | none => st
  | some _ =>
    if st.currentLogFile = [] then st
    else if appendOk then
      { st with currentFileSize := st.currentFileSize + jsLength content }
    else st

/-- `write`: no-op when unconfigured; else `checkAndRotate`, format the
entry, `writeToFile`.  `today`/`ts` stand for `formatDate(new Date())` and
`formatTimestamp(new Date())`. -/
def write (st : LogState) (today ts : JStr) (level : LogLevel) (message : JStr)
    (fs : WriteFS) : LogState × RotEffect :=
  match st.config with
  | none => (st, ⟨none, []⟩)
  | some _ =>
    let p := checkAndRotate st today fs.rot
    (writeToFile p.1 (logEntryOf ts level message) fs.appendOk, p.2)

/-- Loop of `deleteLogFiles`: unlink each path in order; the first throw
aborts the loop.  Returns (no throw happened, paths deleted before any
throw). -/
def deleteLoop (ok : JStr → Bool) : List JStr → Bool × List JStr
  | [] => (true, [])
  | f :: rest =>
    if ok f then
      let r := deleteLoop ok rest
      (r.1, f :: r.2)
    else (false, [])

/-- `deleteLogFiles`: deletes every `getLogFiles()` path; on full success
calls `reconfigure()` and returns true; a throw is caught and returns false
with the state untouched.  Result: (returned value, deleted paths, new
state). -/
def deleteLogFiles (st : LogState) (today : JStr) (fs : DeleteFS) :
    Bool × List JStr × LogState :=
  let files := getLogFiles st fs.accessDir fs.listing
  let r := deleteLoop fs.unlinkOk files
  if r.1 then (true, r.2, reconfigure st today fs.recovery)
  else (false, r.2, st)

end TurboLog

/-! ### Filename-policy lemmas -/

theorem isDig_digCh (n : Nat) : isDig (digCh n) = true := by
  unfold digCh
  rcases n with _ | _ | _ | _ | _ | _ | _ | _ | _ | n <;> rfl

theorem digVal_digCh (n : Nat) (h : n < 10) : digVal (digCh n) = n := by
  interval_cases n <;> rfl

theorem decReprAux_ne_nil (fuel n : Nat) : decReprAux fuel n ≠ [] := by
  cases fuel with
  | zero => simp [decReprAux]
  | succ fuel =>
    unfold decReprAux
    split <;> simp

theorem isDig_decReprAux (fuel n : Nat) (h : n ≤ fuel) :
    ∀ c ∈ decReprAux fuel n, isDig c = true := by
  induction fuel generalizing n with
  | zero =>
    intro c hc
    simp [decReprAux] at hc
    simp [hc, isDig_digCh]
  | succ fuel ih =>
    intro c hc
    unfold decReprAux at hc
    split at hc
    · simp at hc; simp [hc, isDig_digCh]
    · rcases List.mem_append.mp hc with h1 | h1
      · exact ih (n / 10) (by omega) c h1
      · simp at h1; simp [h1, isDig_digCh]

theorem digitsVal_append_singleton (xs : List Char) (c : Char) :
    digitsVal (xs ++ [c]) = 10 * digitsVal xs + digVal c := by
  simp [digitsVal, List.foldl_append]

theorem digitsVal_decReprAux (fuel n : Nat) (h : n ≤ fuel) :
    digitsVal (decReprAux fuel n) = n := by
  induction fuel generalizing n with
  | zero =>
    have hn : n = 0 := by omega
    simp [decReprAux, hn, digitsVal, digVal, digCh]
  | succ fuel ih =>
    unfold decReprAux
    split
    · next hlt =>
      simp [digitsVal]
      exact digVal_digCh n hlt
    · next hge =>
      rw [digitsVal_append_singleton, ih (n / 10) (by omega),
        digVal_digCh (n % 10) (by omega)]
      omega

theorem decRepr_ne_nil (n : Nat) : decRepr n ≠ [] := decReprAux_ne_nil n n

theorem isDig_decRepr (n : Nat) : ∀ c ∈ decRepr n, isDig c = true :=
  isDig_decReprAux n n (Nat.le_refl n)

theorem digitsVal_decRepr (n : Nat) : digitsVal (decRepr n) = n :=
  digitsVal_decReprAux n n (Nat.le_refl n)

theorem takeWhile_append_of_all (p : Char → Bool) (xs : List Char) (c : Char)
    (t : List Char) (h : ∀ x ∈ xs, p x = true) (hc : p c = false) :
    (xs ++ c :: t).takeWhile p = xs := by
  induction xs with
  | nil => simp [List.takeWhile, hc]
  | cons x xs ih =>
    have hx : p x = true := h x (by simp)
    simp [List.takeWhile, hx]
    exact ih (fun y hy => h y (by simp [hy]))

theorem dropWhile_append_of_all (p : Char → Bool) (xs : List Char) (c : Char)
    (t : List Char) (h : ∀ x ∈ xs, p x = true) (hc : p c = false) :
    (xs ++ c :: t).dropWhile p = c :: t := by
  induction xs with
  | nil => simp [List.dropWhile, hc]
  | cons x xs ih =>
    have hx : p x = true := h x (by simp)
    simp [List.dropWhile, hx]
    exact ih (fun y hy => h y (by simp [hy]))

theorem isSuffixOf_append_logSuffix (x : JStr) :
    logSuffix.isSuffixOf (x ++ logSuffix) = true :=
  List.isSuffixOf_iff_suffix.mpr (List.suffix_append x logSuffix)

/-- Core computation of `parseIdx` on a string of the form
`head ++ c ++ digits ++ ".log"` with `c` a non-digit. -/
theorem parseIdx_shape (head : JStr) (c : Char) (rep : JStr)
    (hrep : ∀ d ∈ rep, isDig d = true) (hne : rep ≠ []) (hc : isDig c = false) :
    parseIdx (head ++ c :: (rep ++ logSuffix)) =
      if c = '.' ∨ c = '-' then some (digitsVal rep) else none := by
  have hassoc : head ++ c :: (rep ++ logSuffix) = (head ++ c :: rep) ++ logSuffix := by
    simp
  have hsuf := isSuffixOf_append_logSuffix (head ++ c :: rep)
  have hrev : ((head ++ c :: rep) ++ logSuffix).reverse =
      logSuffix.reverse ++ (rep.reverse ++ c :: head.reverse) := by
    simp [logSuffix]
  have hdrop : (((head ++ c :: rep) ++ logSuffix).reverse).drop 4 =
      rep.reverse ++ c :: head.reverse := by
    rw [hrev]
    have h4 : logSuffix.reverse.length = 4 := by rfl
    rw [← h4, List.drop_left]
  have hrepr : ∀ d ∈ rep.reverse, isDig d = true := by
    intro d hd; exact hrep d (List.mem_reverse.mp hd)
  have htw : (rep.reverse ++ c :: head.reverse).takeWhile isDig = rep.reverse :=
    takeWhile_append_of_all isDig rep.reverse c head.reverse hrepr hc
  have hdw : (rep.reverse ++ c :: head.reverse).dropWhile isDig = c :: head.reverse :=
    dropWhile_append_of_all isDig rep.reverse c head.reverse hrepr hc
  rw [hassoc]
  unfold parseIdx
  rw [hsuf]
  simp only [if_true, hdrop, htw, hdw, List.head?_cons]
  have hrne : rep.reverse ≠ [] := by simpa using hne
  by_cases hdot : c = '.' ∨ c = '-'
  · rcases hdot with h1 | h1 <;>
      simp [h1, hrne, List.reverse_reverse]
  · push_neg at hdot
    simp [hdot.1, hdot.2]

/-- `parseIdx` returns `none` when the character before the final `.log` is
not a digit. -/
theorem parseIdx_end_nondigit (head : JStr) (c : Char) (hc : isDig c = false) :
    parseIdx (head ++ c :: logSuffix) = none := by
  have hassoc : head ++ c :: logSuffix = (head ++ [c]) ++ logSuffix := by simp
  have hsuf := isSuffixOf_append_logSuffix (head ++ [c])
  have hrev : ((head ++ [c]) ++ logSuffix).reverse =
      logSuffix.reverse ++ (c :: head.reverse) := by simp [logSuffix]
  have hdrop : (((head ++ [c]) ++ logSuffix).reverse).drop 4 = c :: head.reverse := by
    rw [hrev]
    have h4 : logSuffix.reverse.length = 4 := by rfl
    rw [← h4, List.drop_left]
  rw [hassoc]
  unfold parseIdx
  rw [hsuf]
  simp [hdrop, List.takeWhile, hc]

/-- A generated rotated name parses back to its index, whatever the prefix,
mode and date string. -/
theorem parseIdx_rotatedName (pfx : JStr) (daily : Bool) (date : JStr) (i : Nat) :
    parseIdx (rotatedName pfx daily date i) = some i := by
  cases daily with
  | false =>
    have h := parseIdx_shape pfx '-' (decRepr i) (isDig_decRepr i)
      (decRepr_ne_nil i) (by rfl)
    simp only [rotatedName, if_neg (by simp : ¬False)]
    simpa [digitsVal_decRepr] using h
  | true =>
    have h := parseIdx_shape (pfx ++ '-' :: date) '.' (decRepr i)
      (isDig_decRepr i) (decRepr_ne_nil i) (by rfl)
    simp only [rotatedName, if_pos rfl]
    rw [show pfx ++ '-' :: (date ++ '.' :: (decRepr i ++ logSuffix)) =
      (pfx ++ '-' :: date) ++ '.' :: (decRepr i ++ logSuffix) by simp]
    simpa [digitsVal_decRepr] using h

/-- The live file name has no parsable index (its stem ends in `t`). -/
theorem parseIdx_latestName (pfx : JStr) : parseIdx (latestName pfx) = none := by
  have hsplit : latestName pfx = (pfx ++ "-lates".toList) ++ 't' :: logSuffix := by
    simp [latestName, latestSuffix, logSuffix]
  rw [hsplit]
  exact parseIdx_end_nondigit (pfx ++ "-lates".toList) 't' (by rfl)

theorem rotatedName_ne_latestName (pfx : JStr) (daily : Bool) (date : JStr) (i : Nat) :
    rotatedName pfx daily date i ≠ latestName pfx := by
  intro h
  have := parseIdx_rotatedName pfx daily date i
  rw [h, parseIdx_latestName] at this
  exact Option.noConfusion this

/-- Rotated names with different indices are different strings. -/
theorem rotatedName_inj_idx (pfx : JStr) (d1 d2 : Bool) (date1 date2 : JStr)
    (i j : Nat) (hij : i ≠ j) :
    rotatedName pfx d1 date1 i ≠ rotatedName pfx d2 date2 j := by
  intro h
  have h1 := parseIdx_rotatedName pfx d1 date1 i
  have h2 := parseIdx_rotatedName pfx d2 date2 j
  rw [h, h2] at h1
  exact hij (Option.some.injEq .. ▸ h1).symm

theorem keepFile_rotatedName (pfx : JStr) (daily : Bool) (date : JStr) (i : Nat) :
    keepFile pfx (rotatedName pfx daily date i) = true := by
  unfold keepFile
  have h1 : pfx.isPrefixOf (rotatedName pfx daily date i) = true := by
    apply List.isPrefixOf_iff_prefix.mpr
    unfold rotatedName
    split <;> exact List.prefix_append pfx _
  have h2 : logSuffix.isSuffixOf (rotatedName pfx daily date i) = true := by
    unfold rotatedName
    split
    · rw [show pfx ++ '-' :: (date ++ '.' :: (decRepr i ++ logSuffix)) =
        (pfx ++ '-' :: date ++ '.' :: decRepr i) ++ logSuffix by simp]
      exact isSuffixOf_append_logSuffix _
    · rw [show pfx ++ '-' :: (decRepr i ++ logSuffix) =
        (pfx ++ '-' :: decRepr i) ++ logSuffix by simp]
      exact isSuffixOf_append_logSuffix _
  simp [h1, h2, rotatedName_ne_latestName]

namespace TurboLog

/-- The running maximum of the `findCurrentFileIndex` loop never decreases. -/
theorem findLoop_mono (pfx : JStr) (files : List JStr) (m : Nat) :
    m ≤ findLoop pfx files m := by
  induction files generalizing m with
  | nil => simp [findLoop]
  | cons f fs ih =>
    unfold findLoop
    refine le_trans ?_ (ih _)
    split
    · split
      · split <;> omega
      · omega
    · omega

/-- Every index parsed from a kept file bounds the loop result from below. -/
theorem findLoop_bound (pfx f : JStr) (n : Nat) (hkeep : keepFile pfx f = true)
    (hparse : parseIdx f = some n) :
    ∀ files : List JStr, f ∈ files → ∀ m : Nat, n ≤ findLoop pfx files m := by
  intro files
  induction files with
  | nil => intro hf; simp at hf
  | cons g fs ih =>
    intro hf m
    rcases List.mem_cons.mp hf with hg | hg
    · subst hg
      unfold findLoop
      refine le_trans ?_ (findLoop_mono pfx fs _)
      simp only [hkeep, hparse, if_true]
      split <;> omega
    · exact ih hg _

/-- The loop result is the starting value or an index actually parsed from a
kept file of the listing. -/
theorem findLoop_attained (pfx : JStr) (files : List JStr) (m : Nat) :
    findLoop pfx files m = m ∨
      ∃ f ∈ files, keepFile pfx f = true ∧ parseIdx f = some (findLoop pfx files m) := by
  induction files generalizing m with
  | nil => left; rfl
  | cons g fs ih =>
    unfold findLoop
    set step := (if keepFile pfx g then
        match parseIdx g with
        | some i => if m < i then i else m
        | none => m
      else m) with hstep
    rcases ih step with h | h
    · rw [h, hstep]
      split
      · next hkeep =>
        rcases hp : parseIdx g with _ | i
        · simp [hp]
        · simp only [hp]
          split
          · right
            exact ⟨g, by simp, hkeep, hp⟩
          · left; rfl
      · left; rfl
    · rcases h with ⟨f, hf, hk, hp⟩
      right
      exact ⟨f, by simp [hf], hk, hp⟩

end TurboLog

namespace TurboLog

/-! ### Frame lemmas for `rotateLogFile` -/

theorem rotateLogFile_frame (st : LogState) (fs : RotateFS) :
    (rotateLogFile st fs).1.config = st.config ∧
    (rotateLogFile st fs).1.currentDate = st.currentDate ∧
    (rotateLogFile st fs).1.currentLogFile = st.currentLogFile := by
  unfold rotateLogFile
  cases hc : st.config with
  | none => exact ⟨hc, rfl, rfl⟩
  | some c =>
    cases fs.accessLive with
    | error e => exact ⟨rfl, rfl, rfl⟩
    | ok b =>
      dsimp only
      split <;> exact ⟨rfl, rfl, rfl⟩

theorem rotateLogFile_index (st : LogState) (c : InternalConfig) (fs : RotateFS)
    (h : st.config = some c) :
    (rotateLogFile st fs).1.currentFileIndex = st.currentFileIndex + 1 := by
  unfold rotateLogFile
  rw [h]
  cases fs.accessLive with
  | error e => rfl
  | ok b =>
    dsimp only
    split <;> rfl

/-! ### Concrete fixtures used by witnesses and counterexamples -/

/-- Sample configuration: non-daily, 50-byte limit, 2 retained files. -/
def cfgW : InternalConfig :=
  { dailyRolling := false, logsDirectory := "/logs".toList,
    maximumFileSize := 50, maximumNumberOfFiles := 2, logPrefix := "app".toList }

/-- Sample state: configured, live file tracked at 60 bytes (over the limit). -/
def stW : LogState :=
  { config := some cfgW, currentLogFile := "/logs/app-latest.log".toList,
    currentDate := "2025-10-12".toList, currentFileSize := 60, currentFileIndex := 0 }

/-- Sample cleanup outcomes: directory holds one rotated file plus the live file. -/
def cleanupW : CleanupFS :=
  { accessDir := Except.ok true,
    listing := Except.ok ["app-1.log".toList, "app-latest.log".toList],
    statMtime := fun _ => Except.ok 5,
    unlinkOk := fun _ => true }

/-- Rotation outcomes: live file exists and the rename succeeds. -/
def rotW : RotateFS :=
  { accessLive := Except.ok true, renameOk := true, cleanup := cleanupW }

/-- Rotation outcomes: live file exists but the rename throws. -/
def rotFailW : RotateFS :=
  { accessLive := Except.ok true, renameOk := false, cleanup := cleanupW }

/-- Write outcomes: successful rotation path, successful append. -/
def wfsW : WriteFS := { rot := rotW, appendOk := true }

/-- Write outcomes: rename throws, append succeeds. -/
def wfsFailW : WriteFS := { rot := rotFailW, appendOk := true }

end TurboLog

/-- C9: every triggered rotation increments the rotation index exactly once,
for every file-store outcome — including a missing live file (the rename is
skipped) and a thrown `accessSync`/`renameSync` (the `currentFileIndex++`
precedes the rename inside the `try`) — so the indices embedded in rotated
filenames can skip values after a failed or skipped rename. -/
theorem TurboLog.rotateLogFile_increments_once (st : LogState) (c : InternalConfig)
    (fs : TurboLog.RotateFS) (h : st.config = some c) :
    (TurboLog.rotateLogFile st fs).1.currentFileIndex = st.currentFileIndex + 1 :=
  TurboLog.rotateLogFile_index st c fs h

/-- Witness for C9: a concrete rotation whose rename throws still advances
the index from 0 to 1. -/
theorem TurboLog.rotateLogFile_increments_once_witness :
    (TurboLog.rotateLogFile TurboLog.stW TurboLog.rotFailW).1.currentFileIndex =
      TurboLog.stW.currentFileIndex + 1 :=
  TurboLog.rotateLogFile_increments_once TurboLog.stW TurboLog.cfgW TurboLog.rotFailW rfl

/-- C8: on an unchanged file store, `reconfigure()` right after `configure`
re-establishes exactly the recovered `currentFileSize` and
`currentFileIndex` (recovery is deterministic in the config and the
file-store outcomes, and `reconfigure` re-applies the same config). -/
theorem TurboLog.reconfigure_idempotent (st : LogState) (o : ConfigureOptions)
    (today today2 : JStr) (fs : TurboLog.RecoveryFS) :
    (TurboLog.reconfigure (TurboLog.configure st o today fs) today2 fs).currentFileSize =
        (TurboLog.configure st o today fs).currentFileSize ∧
    (TurboLog.reconfigure (TurboLog.configure st o today fs) today2 fs).currentFileIndex =
        (TurboLog.configure st o today fs).currentFileIndex := by
  exact ⟨rfl, rfl⟩

namespace TurboLog

/-- Unfolding equation for `checkAndRotate` on a configured state. -/
theorem checkAndRotate_eq (st : LogState) (c : InternalConfig) (today : JStr)
    (fs : RotateFS) (h : st.config = some c) :
    checkAndRotate st today fs =
      if (c.dailyRolling && decide (today ≠ st.currentDate)) ||
          (decide (0 < c.maximumFileSize) &&
            decide (c.maximumFileSize ≤ st.currentFileSize)) then
        rotateLogFile
          (if c.dailyRolling && decide (today ≠ st.currentDate) then
            { st with currentDate := today } else st) fs
      else
        (if c.dailyRolling && decide (today ≠ st.currentDate) then
          { st with currentDate := today } else st, ⟨none, []⟩) := by
  unfold checkAndRotate
  rw [h]

end TurboLog

/-- C1: on a configured logger, `write` first runs the rotation check and
only then appends the formatted entry; the check rotates exactly once
(witnessed by the index, which a rotation always advances by one) iff
daily rolling is on and the date changed — updating `currentDate` first —
or the size limit is positive and the tracked size has reached it; and it
never rotates more than once per write even when both triggers hold. -/
theorem TurboLog.checkAndRotate_spec (st : LogState) (c : InternalConfig)
    (today ts msg : JStr) (lvl : LogLevel) (fs : TurboLog.WriteFS)
    (h : st.config = some c) :
    ((TurboLog.checkAndRotate st today fs.rot).1.currentFileIndex = st.currentFileIndex + 1 ↔
      ((c.dailyRolling = true ∧ today ≠ st.currentDate) ∨
        (0 < c.maximumFileSize ∧ c.maximumFileSize ≤ st.currentFileSize))) ∧
    ((TurboLog.checkAndRotate st today fs.rot).1.currentFileIndex = st.currentFileIndex ∨
      (TurboLog.checkAndRotate st today fs.rot).1.currentFileIndex = st.currentFileIndex + 1) ∧
    (c.dailyRolling = true → today ≠ st.currentDate →
      (TurboLog.checkAndRotate st today fs.rot).1.currentDate = today) ∧
    TurboLog.write st today ts lvl msg fs =
      (TurboLog.writeToFile (TurboLog.checkAndRotate st today fs.rot).1
          (logEntryOf ts lvl msg) fs.appendOk,
        (TurboLog.checkAndRotate st today fs.rot).2) := by
  have hw : TurboLog.write st today ts lvl msg fs =
      (TurboLog.writeToFile (TurboLog.checkAndRotate st today fs.rot).1
          (logEntryOf ts lvl msg) fs.appendOk,
        (TurboLog.checkAndRotate st today fs.rot).2) := by
    unfold TurboLog.write
    rw [h]
  have key :
      ((TurboLog.checkAndRotate st today fs.rot).1.currentFileIndex = st.currentFileIndex + 1 ↔
        ((c.dailyRolling = true ∧ today ≠ st.currentDate) ∨
          (0 < c.maximumFileSize ∧ c.maximumFileSize ≤ st.currentFileSize))) ∧
      ((TurboLog.checkAndRotate st today fs.rot).1.currentFileIndex = st.currentFileIndex ∨
        (TurboLog.checkAndRotate st today fs.rot).1.currentFileIndex = st.currentFileIndex + 1) ∧
      (c.dailyRolling = true → today ≠ st.currentDate →
        (TurboLog.checkAndRotate st today fs.rot).1.currentDate = today) := by
    cases hb : (c.dailyRolling && decide (today ≠ st.currentDate)) with
    | true =>
      have hb' : c.dailyRolling = true ∧ today ≠ st.currentDate := by
        simpa using hb
      have hcfg : ({ st with currentDate := today } : LogState).config = some c := h
      have heq : TurboLog.checkAndRotate st today fs.rot =
          TurboLog.rotateLogFile { st with currentDate := today } fs.rot := by
        rw [TurboLog.checkAndRotate_eq st c today fs.rot h, hb]
        rfl
      rw [heq, TurboLog.rotateLogFile_index _ c fs.rot hcfg,
        (TurboLog.rotateLogFile_frame _ fs.rot).2.1]
      refine ⟨by simp [hb'], Or.inr rfl, fun _ _ => rfl⟩
    | false =>
      have hb' : ¬(c.dailyRolling = true ∧ today ≠ st.currentDate) := by
        simpa using hb
      cases hs : (decide (0 < c.maximumFileSize) &&
          decide (c.maximumFileSize ≤ st.currentFileSize)) with
      | true =>
        have hs' : 0 < c.maximumFileSize ∧ c.maximumFileSize ≤ st.currentFileSize := by
          simpa using hs
        have heq : TurboLog.checkAndRotate st today fs.rot =
            TurboLog.rotateLogFile st fs.rot := by
          rw [TurboLog.checkAndRotate_eq st c today fs.rot h, hb, hs]
          rfl
        rw [heq, TurboLog.rotateLogFile_index _ c fs.rot h]
        exact ⟨by simp [hs'], Or.inr rfl, fun h1 h2 => absurd ⟨h1, h2⟩ hb'⟩
      | false =>
        have hs' : ¬(0 < c.maximumFileSize ∧ c.maximumFileSize ≤ st.currentFileSize) := by
          simpa using hs
        have heq : TurboLog.checkAndRotate st today fs.rot =
            (st, (⟨none, []⟩ : TurboLog.RotEffect)) := by
          rw [TurboLog.checkAndRotate_eq st c today fs.rot h, hb, hs]
          rfl
        rw [heq]
        dsimp only
        refine ⟨⟨fun hidx => by omega, fun hor => absurd (hor.resolve_left hb') hs'⟩,
          Or.inl rfl, fun h1 h2 => absurd ⟨h1, h2⟩ hb'⟩
  exact ⟨key.1, key.2.1, key.2.2, hw⟩

/-- Witness for C1: with the tracked size 60 over the 50-byte limit, the
concrete check performs the (single) rotation. -/
theorem TurboLog.checkAndRotate_spec_witness :
    (TurboLog.checkAndRotate TurboLog.stW "2025-10-12".toList TurboLog.wfsW.rot).1.currentFileIndex =
      TurboLog.stW.currentFileIndex + 1 :=
  (TurboLog.checkAndRotate_spec TurboLog.stW TurboLog.cfgW "2025-10-12".toList
      "ts".toList "msg".toList LogLevel.info TurboLog.wfsW rfl).1.mpr
    (Or.inr ⟨by decide, by decide⟩)

namespace TurboLog

/-- On the rename-failure path (`accessSync` true, `renameSync` throws) the
rotation leaves everything except the already-incremented index unchanged:
the `catch` skips the size reset and the cleanup. -/
theorem rotateLogFile_renameFail (st : LogState) (c : InternalConfig)
    (fs : RotateFS) (h : st.config = some c)
    (hacc : fs.accessLive = Except.ok true) (hren : fs.renameOk = false) :
    (rotateLogFile st fs).1 =
      { st with currentFileIndex := st.currentFileIndex + 1 } := by
  unfold rotateLogFile
  rw [h, hacc, hren]
  rfl

/-- A successful append adds the JS length of the content. -/
theorem writeToFile_ok (st : LogState) (c : InternalConfig) (content : JStr)
    (h : st.config = some c) (hlive : st.currentLogFile ≠ []) :
    writeToFile st content true =
      { st with currentFileSize := st.currentFileSize + jsLength content } := by
  unfold writeToFile
  rw [h, if_neg hlive]
  rfl

end TurboLog

/-- Counterexample to C6 as stated: with the tracked size 60 over the
50-byte limit, the live file present, and the rename throwing, the rotation
is triggered (index 0 → 1) but `currentFileSize` stays 60 — it is NOT reset
to 0, because the reset sits after `renameSync` inside the same `try` and
the throw jumps straight to the `catch`. -/
theorem TurboLog.rotate_renameFail_size_cex :
    (TurboLog.checkAndRotate TurboLog.stW "2025-10-12".toList TurboLog.rotFailW).1.currentFileIndex =
      TurboLog.stW.currentFileIndex + 1 ∧
    (TurboLog.checkAndRotate TurboLog.stW "2025-10-12".toList TurboLog.rotFailW).1.currentFileSize = 60 ∧
    ¬((TurboLog.checkAndRotate TurboLog.stW "2025-10-12".toList
        TurboLog.rotFailW).1.currentFileSize = 0) := by
  decide

/-- C6 (amended): when a rotation is triggered and the rename of the live
file fails, `currentFileSize` keeps its previous value (the reset is
skipped), and the write still proceeds and appends under the live name: the
live path is unchanged and a successful append adds the entry length on top
of the old size — a rotation failure never blocks the write. -/
theorem TurboLog.write_renameFail_proceeds (st : LogState) (c : InternalConfig)
    (today ts msg : JStr) (lvl : LogLevel) (fs : TurboLog.WriteFS)
    (h : st.config = some c)
    (htrig : (c.dailyRolling = true ∧ today ≠ st.currentDate) ∨
      (0 < c.maximumFileSize ∧ c.maximumFileSize ≤ st.currentFileSize))
    (hacc : fs.rot.accessLive = Except.ok true)
    (hren : fs.rot.renameOk = false)
    (hap : fs.appendOk = true)
    (hlive : st.currentLogFile ≠ []) :
    (TurboLog.write st today ts lvl msg fs).1.currentFileSize =
        st.currentFileSize + jsLength (logEntryOf ts lvl msg) ∧
    (TurboLog.write st today ts lvl msg fs).1.currentLogFile = st.currentLogFile ∧
    (TurboLog.write st today ts lvl msg fs).1.currentFileIndex = st.currentFileIndex + 1 := by
  have hw : TurboLog.write st today ts lvl msg fs =
      (TurboLog.writeToFile (TurboLog.checkAndRotate st today fs.rot).1
          (logEntryOf ts lvl msg) fs.appendOk,
        (TurboLog.checkAndRotate st today fs.rot).2) := by
    unfold TurboLog.write
    rw [h]
  have hrot : (TurboLog.checkAndRotate st today fs.rot).1.currentFileSize = st.currentFileSize ∧
      (TurboLog.checkAndRotate st today fs.rot).1.currentLogFile = st.currentLogFile ∧
      (TurboLog.checkAndRotate st today fs.rot).1.currentFileIndex = st.currentFileIndex + 1 ∧
      (TurboLog.checkAndRotate st today fs.rot).1.config = some c := by
    cases hb : (c.dailyRolling && decide (today ≠ st.currentDate)) with
    | true =>
      have heq : TurboLog.checkAndRotate st today fs.rot =
          TurboLog.rotateLogFile { st with currentDate := today } fs.rot := by
        rw [TurboLog.checkAndRotate_eq st c today fs.rot h, hb]
        rfl
      have hcfg : ({ st with currentDate := today } : LogState).config = some c := h
      rw [heq, TurboLog.rotateLogFile_renameFail { st with currentDate := today } c
        fs.rot hcfg hacc hren]
      exact ⟨rfl, rfl, rfl, h⟩
    | false =>
      have hb' : ¬(c.dailyRolling = true ∧ today ≠ st.currentDate) := by
        simpa using hb
      have hs' := htrig.resolve_left hb'
      have hs : (decide (0 < c.maximumFileSize) &&
          decide (c.maximumFileSize ≤ st.currentFileSize)) = true := by
        simp [hs'.1, hs'.2]
      have heq : TurboLog.checkAndRotate st today fs.rot =
          TurboLog.rotateLogFile st fs.rot := by
        rw [TurboLog.checkAndRotate_eq st c today fs.rot h, hb, hs]
        rfl
      rw [heq, TurboLog.rotateLogFile_renameFail st c fs.rot h hacc hren]
      exact ⟨rfl, rfl, rfl, h⟩
  rw [hw]
  dsimp only
  rw [hap, TurboLog.writeToFile_ok _ c _ hrot.2.2.2 (hrot.2.1 ▸ hlive)]
  exact ⟨by rw [hrot.1], hrot.2.1, hrot.2.2.1⟩

/-- Witness for C6 (amended): the concrete over-limit state with a failing
rename still gets its entry appended on top of the un-reset 60 bytes. -/
theorem TurboLog.write_renameFail_proceeds_witness :
    (TurboLog.write TurboLog.stW "2025-10-12".toList "ts".toList LogLevel.info
        "m".toList TurboLog.wfsFailW).1.currentFileSize =
      TurboLog.stW.currentFileSize + jsLength (logEntryOf "ts".toList LogLevel.info "m".toList) :=
  (TurboLog.write_renameFail_proceeds TurboLog.stW TurboLog.cfgW "2025-10-12".toList
      "ts".toList "m".toList LogLevel.info TurboLog.wfsFailW rfl
      (Or.inr ⟨by decide, by decide⟩) rfl rfl rfl (by decide)).1

/-- C5 (code-bug evidence): on a successful append `writeToFile` adds
`content.length` — the UTF-16 code-unit count — to `currentFileSize`, while
the payload written to disk is the UTF-8 encoding of the content: for the
2-code-unit entry `é\n` the counter grows by 2 although 3 bytes are
appended.  (Recovery seeds the same counter from `stat.size`, a byte count,
and `maximumFileSize` is documented in bytes, so the byte interpretation is
the intended one.)  A failed append leaves the state unchanged and the
entry is dropped without retry. -/
theorem TurboLog.writeToFile_counts_utf16_units :
    (TurboLog.writeToFile TurboLog.stW "é\n".toList true).currentFileSize =
      TurboLog.stW.currentFileSize + jsLength "é\n".toList ∧
    jsLength "é\n".toList = 2 ∧
    utf8ByteLength "é\n".toList = 3 ∧
    TurboLog.writeToFile TurboLog.stW "é\n".toList false = TurboLog.stW := by
  decide

namespace TurboLog

/-- When every unlink succeeds, the delete loop deletes everything. -/
theorem deleteLoop_all_ok (ok : JStr → Bool) (l : List JStr)
    (h : ∀ f ∈ l, ok f = true) : deleteLoop ok l = (true, l) := by
  induction l with
  | nil => rfl
  | cons f rest ih =>
    have hf : ok f = true := h f (by simp)
    simp [deleteLoop, hf, ih (fun g hg => h g (by simp [hg]))]

/-- The first throw aborts the loop: everything before it is deleted,
nothing after it is touched. -/
theorem deleteLoop_first_fail (ok : JStr → Bool) (pre : List JStr) (f : JStr)
    (post : List JStr) (hpre : ∀ g ∈ pre, ok g = true) (hf : ok f = false) :
    deleteLoop ok (pre ++ f :: post) = (false, pre) := by
  induction pre with
  | nil => simp [deleteLoop, hf]
  | cons g rest ih =>
    have hg : ok g = true := hpre g (by simp)
    simp [deleteLoop, hg, hf, ih (fun x hx => hpre x (by simp [hx]))]

/-- Delete-loop outcomes: every non-live `.log` file present, one unlink
throwing on `/logs/c.log`. -/
def dfsW : DeleteFS :=
  { accessDir := Except.ok true,
    listing := Except.ok ["a.log".toList, "b.txt".toList, "c.log".toList],
    unlinkOk := fun p => decide (p ≠ "/logs/c.log".toList),
    recovery := { accessLive := Except.ok false, statLive := Except.ok 0,
                  listing := Except.ok [] } }

/-- Same directory, all unlinks succeeding. -/
def dfsOkW : DeleteFS := { dfsW with unlinkOk := fun _ => true }

end TurboLog

/-- C7: `deleteLogFiles` unlinks every `getLogFiles()` path in order; when
all deletions succeed it calls `reconfigure()` and returns true; when one
throws it returns false, the paths unlinked before the failure stay deleted
(no rollback), the later paths are not touched, and `reconfigure()` is not
reached. -/
theorem TurboLog.deleteLogFiles_spec (st : LogState) (today : JStr)
    (fs : TurboLog.DeleteFS) :
    ((∀ f ∈ TurboLog.getLogFiles st fs.accessDir fs.listing, fs.unlinkOk f = true) →
      TurboLog.deleteLogFiles st today fs =
        (true, TurboLog.getLogFiles st fs.accessDir fs.listing,
          TurboLog.reconfigure st today fs.recovery)) ∧
    (∀ pre f post,
      TurboLog.getLogFiles st fs.accessDir fs.listing = pre ++ f :: post →
      (∀ g ∈ pre, fs.unlinkOk g = true) → fs.unlinkOk f = false →
      TurboLog.deleteLogFiles st today fs = (false, pre, st)) := by
  constructor
  · intro hall
    unfold TurboLog.deleteLogFiles
    dsimp only
    rw [TurboLog.deleteLoop_all_ok fs.unlinkOk _ hall]
    rfl
  · intro pre f post hsplit hpre hf
    unfold TurboLog.deleteLogFiles
    dsimp only
    rw [hsplit, TurboLog.deleteLoop_first_fail fs.unlinkOk pre f post hpre hf]
    rfl

/-- Witness for C7: with `/logs/c.log` refusing deletion, only
`/logs/a.log` is removed, the call reports false and keeps the state; with
all unlinks succeeding it reports true. -/
theorem TurboLog.deleteLogFiles_spec_witness :
    TurboLog.deleteLogFiles TurboLog.stW "2025-10-13".toList TurboLog.dfsW =
      (false, ["/logs/a.log".toList], TurboLog.stW) ∧
    (TurboLog.deleteLogFiles TurboLog.stW "2025-10-13".toList TurboLog.dfsOkW).1 = true := by
  constructor
  · exact (TurboLog.deleteLogFiles_spec TurboLog.stW "2025-10-13".toList TurboLog.dfsW).2
      ["/logs/a.log".toList] "/logs/c.log".toList [] (by decide) (by decide) (by decide)
  · rw [(TurboLog.deleteLogFiles_spec TurboLog.stW "2025-10-13".toList
      TurboLog.dfsOkW).1 (by decide)]

namespace TurboLog

/-- Recovery outcomes used by the C4 witness: live file of 123 bytes,
directory listing with one matching rotated file of index 3. -/
def rfsW : RecoveryFS :=
  { accessLive := Except.ok true, statLive := Except.ok 123,
    listing := Except.ok ["app-3.log".toList, "app-latest.log".toList,
      "other.txt".toList] }

/-- Options used by the C4 witness (prefix kept at the default `app`). -/
def optW : ConfigureOptions := { logsDirectory := some "/logs".toList }

end TurboLog

/-- C4: `configure` always succeeds and records the config; recovery sets
`currentFileSize` to the live file's stat size and to 0 when the access
check is false or the access/stat call throws, and sets `currentFileIndex`
to the greatest index parsed from listed entries that start with the
prefix, end in `.log` and are not the live file — 0 when no such index
exists or the listing throws. -/
theorem TurboLog.configure_recovery (st : LogState) (o : ConfigureOptions)
    (today : JStr) (fs : TurboLog.RecoveryFS) :
    (TurboLog.configure st o today fs).config = some (TurboLog.withDefaults o) ∧
    (TurboLog.configure st o today fs).currentLogFile =
      (TurboLog.withDefaults o).logsDirectory ++
        '/' :: latestName (TurboLog.withDefaults o).logPrefix ∧
    (∀ n, fs.accessLive = Except.ok true → fs.statLive = Except.ok n →
      (TurboLog.configure st o today fs).currentFileSize = n) ∧
    ((fs.accessLive = Except.ok false ∨ fs.accessLive = Except.error () ∨
        fs.statLive = Except.error ()) →
      (TurboLog.configure st o today fs).currentFileSize = 0) ∧
    (∀ files, fs.listing = Except.ok files →
      (∀ f ∈ files, keepFile (TurboLog.withDefaults o).logPrefix f = true →
        ∀ n, parseIdx f = some n → n ≤ (TurboLog.configure st o today fs).currentFileIndex) ∧
      ((TurboLog.configure st o today fs).currentFileIndex = 0 ∨
        ∃ f ∈ files, keepFile (TurboLog.withDefaults o).logPrefix f = true ∧
          parseIdx f = some ((TurboLog.configure st o today fs).currentFileIndex))) ∧
    (fs.listing = Except.error () → (TurboLog.configure st o today fs).currentFileIndex = 0) := by
  refine ⟨rfl, rfl, ?_, ?_, ?_, ?_⟩
  · intro n hacc hstat
    unfold TurboLog.configure TurboLog.initCurrentLogFile
    rw [hacc, hstat]
  · intro hcase
    unfold TurboLog.configure TurboLog.initCurrentLogFile
    rcases hcase with hc | hc | hc
    · rw [hc]
    · rw [hc]
    · cases hacc : fs.accessLive with
      | error e => rfl
      | ok b =>
        cases b with
        | false => rfl
        | true => rw [hc]
  · intro files hlst
    have hidx : (TurboLog.configure st o today fs).currentFileIndex =
        TurboLog.findLoop (TurboLog.withDefaults o).logPrefix files 0 := by
      unfold TurboLog.configure TurboLog.initCurrentLogFile TurboLog.findCurrentFileIndex
      rw [hlst]
    constructor
    · intro f hf hkeep n hparse
      rw [hidx]
      exact TurboLog.findLoop_bound _ f n hkeep hparse files hf 0
    · rw [hidx]
      exact TurboLog.findLoop_attained _ files 0
  · intro hlst
    unfold TurboLog.configure TurboLog.initCurrentLogFile TurboLog.findCurrentFileIndex
    rw [hlst]

/-- Witness for C4: on the concrete recovery outcomes (stat 123, listing
containing `app-3.log`) the configured logger reports size 123 and an index
at least 3. -/
theorem TurboLog.configure_recovery_witness :
    (TurboLog.configure initialState TurboLog.optW "2025-10-12".toList
        TurboLog.rfsW).currentFileSize = 123 ∧
    3 ≤ (TurboLog.configure initialState TurboLog.optW "2025-10-12".toList
        TurboLog.rfsW).currentFileIndex := by
  constructor
  · exact (TurboLog.configure_recovery initialState TurboLog.optW
      "2025-10-12".toList TurboLog.rfsW).2.2.1 123 rfl rfl
  · exact ((TurboLog.configure_recovery initialState TurboLog.optW
        "2025-10-12".toList TurboLog.rfsW).2.2.2.2.1
      ["app-3.log".toList, "app-latest.log".toList, "other.txt".toList] rfl).1
      "app-3.log".toList (by decide) (by decide) 3 (by decide)

namespace TurboLog

/-- Directory listing used by the C3 witness. -/
def filesW : List JStr :=
  ["app-2.log".toList, "app-latest.log".toList, "b.log".toList]

end TurboLog

/-- C3: rotated filenames never collide.  Starting from the recovered index
(the maximum parsed from the existing rotated files), the j-th rotation
names its file with index `recovered + j` — whatever date stamps the
individual rotations use — and (1) that name is not among the files present
at recovery time, (2) any two distinct rotations produce distinct names,
and (3) on the success path `rotateLogFile` really renames the live file to
the rotated name carrying the incremented index. -/
theorem TurboLog.rotation_names_fresh (files : List JStr) (pfx : JStr)
    (daily : Bool) (dates : Nat → JStr) :
    (∀ j, 1 ≤ j →
      rotatedName pfx daily (dates j)
        (TurboLog.findCurrentFileIndex pfx (Except.ok files) + j) ∉ files) ∧
    (∀ j k, 1 ≤ k → k < j →
      rotatedName pfx daily (dates k)
          (TurboLog.findCurrentFileIndex pfx (Except.ok files) + k) ≠
        rotatedName pfx daily (dates j)
          (TurboLog.findCurrentFileIndex pfx (Except.ok files) + j)) ∧
    (∀ (st : LogState) (c : InternalConfig) (fsr : TurboLog.RotateFS),
      st.config = some c → fsr.accessLive = Except.ok true → fsr.renameOk = true →
      (TurboLog.rotateLogFile st fsr).2.renamedTo =
        some (c.logsDirectory ++ '/' ::
          rotatedName c.logPrefix c.dailyRolling st.currentDate (st.currentFileIndex + 1)) ∧
      (TurboLog.rotateLogFile st fsr).1.currentFileIndex = st.currentFileIndex + 1) := by
  have hfl : TurboLog.findCurrentFileIndex pfx (Except.ok files) =
      TurboLog.findLoop pfx files 0 := rfl
  refine ⟨?_, ?_, ?_⟩
  · intro j hj hmem
    have hbound := TurboLog.findLoop_bound pfx
      (rotatedName pfx daily (dates j) (TurboLog.findCurrentFileIndex pfx (Except.ok files) + j))
      (TurboLog.findCurrentFileIndex pfx (Except.ok files) + j)
      (keepFile_rotatedName pfx daily (dates j) _)
      (parseIdx_rotatedName pfx daily (dates j) _)
      files hmem 0
    rw [← hfl] at hbound
    omega
  · intro j k h1 hk
    exact rotatedName_inj_idx pfx daily daily (dates k) (dates j) _ _ (by omega)
  · intro st c fsr h hacc hren
    unfold TurboLog.rotateLogFile
    rw [h, hacc, hren]
    exact ⟨rfl, rfl⟩

/-- Witness for C3: with `app-2.log` on disk the recovered index is 2, so
the next two rotations are named `app-3.log` and `app-4.log`: fresh and
mutually distinct. -/
theorem TurboLog.rotation_names_fresh_witness :
    rotatedName "app".toList false "2025-10-12".toList
        (TurboLog.findCurrentFileIndex "app".toList (Except.ok TurboLog.filesW) + 1) ∉
      TurboLog.filesW ∧
    rotatedName "app".toList false "2025-10-12".toList
        (TurboLog.findCurrentFileIndex "app".toList (Except.ok TurboLog.filesW) + 1) ≠
      rotatedName "app".toList false "2025-10-12".toList
        (TurboLog.findCurrentFileIndex "app".toList (Except.ok TurboLog.filesW) + 2) := by
  constructor
  · exact (TurboLog.rotation_names_fresh TurboLog.filesW "app".toList false
      (fun _ => "2025-10-12".toList)).1 1 (by decide)
  · exact (TurboLog.rotation_names_fresh TurboLog.filesW "app".toList false
      (fun _ => "2025-10-12".toList)).2.1 2 1 (by decide) (by decide)

namespace TurboLog

/-- For a positive retention bound, the deletion loop takes exactly the
oldest `length + 1 - maxFiles` entries off the front (0 when the count is
below the bound). -/
theorem cleanupLoop_eq_take (maxFiles : Nat) (l : List (JStr × Nat)) :
    cleanupLoop maxFiles l = (l.map Prod.fst).take (l.length + 1 - maxFiles) := by
  induction l with
  | nil => simp [cleanupLoop]
  | cons f rest ih =>
    unfold cleanupLoop
    by_cases hc : maxFiles ≤ (f :: rest).length
    · rw [if_pos hc, ih]
      have hlen : (f :: rest).length + 1 - maxFiles =
          (rest.length + 1 - maxFiles) + 1 := by
        simp only [List.length_cons] at hc ⊢
        omega
      rw [List.map_cons, hlen, List.take_succ_cons]
    · rw [if_neg hc]
      have hlen : (f :: rest).length + 1 - maxFiles = 0 := by
        simp only [List.length_cons] at hc ⊢
        omega
      rw [hlen, List.take_zero]

/-- Every path the deletion loop touches comes from the candidate list. -/
theorem cleanupLoop_subset (maxFiles : Nat) (l : List (JStr × Nat)) :
    ∀ p ∈ cleanupLoop maxFiles l, p ∈ l.map Prod.fst := by
  induction l with
  | nil => simp [cleanupLoop]
  | cons f rest ih =>
    intro p hp
    unfold cleanupLoop at hp
    split at hp
    · rcases List.mem_cons.mp hp with h1 | h1
      · rw [List.map_cons, h1]
        exact List.mem_cons_self _ _
      · rw [List.map_cons]
        exact List.mem_cons_of_mem _ (ih p h1)
    · simp at hp

/-- When every stat succeeds, the candidate paths are exactly the listed
paths not ending in `-latest.log`. -/
theorem filterMap_stat_map_fst (mt : JStr → Nat) (stat : JStr → Except Unit Nat)
    (hstat : ∀ p, stat p = Except.ok (mt p)) (l : List JStr) :
    (l.filterMap (statEntry stat)).map Prod.fst =
      l.filter (fun f => !(latestSuffix.isSuffixOf f)) := by
  induction l with
  | nil => rfl
  | cons f rest ih =>
    cases hf : latestSuffix.isSuffixOf f with
    | true =>
      have e1 : statEntry stat f = none := by
        unfold statEntry
        rw [hf]
        rfl
      have e2 : ¬((fun f => !latestSuffix.isSuffixOf f) f = true) := by
        simp only [Bool.not_eq_true', hf]
        exact fun hx => Bool.noConfusion hx
      rw [List.filterMap_cons_none e1,
        @List.filter_cons_of_neg _ (fun f => !latestSuffix.isSuffixOf f) f rest e2, ih]
    | false =>
      have e1 : statEntry stat f = some (f, mt f) := by
        unfold statEntry
        rw [hf, hstat f]
        rfl
      have e2 : (fun f => !latestSuffix.isSuffixOf f) f = true := by
        simp only [Bool.not_eq_true']
        exact hf
      rw [List.filterMap_cons_some e1,
        @List.filter_cons_of_pos _ (fun f => !latestSuffix.isSuffixOf f) f rest e2,
        List.map_cons, ih]

/-- Retention cleanup reads the state only through its config. -/
theorem cleanupOldLogFiles_config (st st' : LogState) (fs : CleanupFS)
    (h : st.config = st'.config) :
    cleanupOldLogFiles st fs = cleanupOldLogFiles st' fs := by
  unfold cleanupOldLogFiles retentionCandidates getLogFiles
  rw [h]

end TurboLog

namespace TurboLog

/-- Cleanup outcomes used by the C2 witness: three rotated files plus the
live one, stat giving 3/1/2 and all unlinks succeeding. -/
def cfsW : CleanupFS :=
  { accessDir := Except.ok true,
    listing := Except.ok ["app-1.log".toList, "app-2.log".toList,
      "app-3.log".toList, "app-latest.log".toList],
    statMtime := fun p => Except.ok (digitsVal (p.filter isDig)),
    unlinkOk := fun _ => true }

end TurboLog

/-- C2: retention cleanup (run by the success path of every rotation)
collects the `.log` paths excluding the `-latest.log` live file — exactly
the stat-surviving candidates — sorts them ascending by modification time,
and deletes from the oldest end while the candidate count is ≥
`maximumNumberOfFiles`, so at most `maximumNumberOfFiles - 1` candidates
survive; the attempted deletions are the same whatever the unlink outcomes
(an individual deletion failure does not abort the remaining deletions).
The source loop does not terminate when `maximumNumberOfFiles = 0`, hence
the positivity hypothesis. -/
theorem TurboLog.cleanupOldLogFiles_spec (st : LogState) (c : InternalConfig)
    (fs : TurboLog.CleanupFS) (mt : JStr → Nat) (h : st.config = some c)
    (hpos : 0 < c.maximumNumberOfFiles)
    (hstat : ∀ p, fs.statMtime p = Except.ok (mt p)) :
    (TurboLog.retentionCandidates st fs).map Prod.fst =
      (TurboLog.getLogFiles st fs.accessDir fs.listing).filter
        (fun p => !(latestSuffix.isSuffixOf p)) ∧
    ((TurboLog.retentionCandidates st fs).mergeSort (fun a b => a.2 ≤ b.2)).Pairwise
      (fun a b => a.2 ≤ b.2) ∧
    TurboLog.cleanupOldLogFiles st fs =
      (((TurboLog.retentionCandidates st fs).mergeSort
        (fun a b => a.2 ≤ b.2)).map Prod.fst).take
          ((TurboLog.retentionCandidates st fs).length + 1 - c.maximumNumberOfFiles) ∧
    (TurboLog.retentionCandidates st fs).length -
        (TurboLog.cleanupOldLogFiles st fs).length =
      min (TurboLog.retentionCandidates st fs).length (c.maximumNumberOfFiles - 1) ∧
    (∀ u, TurboLog.cleanupOldLogFiles st { fs with unlinkOk := u } =
      TurboLog.cleanupOldLogFiles st fs) ∧
    (∀ p ∈ TurboLog.cleanupOldLogFiles st fs, fs.unlinkOk p = true →
      p ∈ TurboLog.cleanupDeleted st fs) ∧
    (∀ fsr : TurboLog.RotateFS, fsr.accessLive = Except.ok true →
      fsr.renameOk = true → fsr.cleanup = fs →
      (TurboLog.rotateLogFile st fsr).2.deletions =
        TurboLog.cleanupOldLogFiles st fs) := by
  have hperm := List.mergeSort_perm (TurboLog.retentionCandidates st fs)
    (fun a b => a.2 ≤ b.2)
  have hclean : TurboLog.cleanupOldLogFiles st fs =
      TurboLog.cleanupLoop c.maximumNumberOfFiles
        ((TurboLog.retentionCandidates st fs).mergeSort (fun a b => a.2 ≤ b.2)) := by
    unfold TurboLog.cleanupOldLogFiles
    rw [h]
  have htake : TurboLog.cleanupOldLogFiles st fs =
      (((TurboLog.retentionCandidates st fs).mergeSort
        (fun a b => a.2 ≤ b.2)).map Prod.fst).take
          ((TurboLog.retentionCandidates st fs).length + 1 - c.maximumNumberOfFiles) := by
    rw [hclean, TurboLog.cleanupLoop_eq_take, hperm.length_eq]
  refine ⟨?_, ?_, htake, ?_, ?_, ?_, ?_⟩
  · exact TurboLog.filterMap_stat_map_fst mt fs.statMtime hstat _
  · have h1 := @List.sorted_mergeSort (JStr × Nat) (fun a b => decide (a.2 ≤ b.2))
      (by intro a b d hab hbd; simp only [decide_eq_true_eq] at *; omega)
      (by intro a b; simp only [Bool.or_eq_true, decide_eq_true_eq]; omega)
      (TurboLog.retentionCandidates st fs)
    exact h1.imp (by intro a b hab; simpa using hab)
  · rw [htake, List.length_take, List.length_map, hperm.length_eq]
    omega
  · intro u
    rfl
  · intro p hp hok
    unfold TurboLog.cleanupDeleted
    exact List.mem_filter.mpr ⟨hp, hok⟩
  · intro fsr hacc hren hcl
    have hstep : (TurboLog.rotateLogFile st fsr).2.deletions =
        TurboLog.cleanupOldLogFiles
          { st with currentFileIndex := st.currentFileIndex + 1,
                    currentFileSize := 0 } fsr.cleanup := by
      unfold TurboLog.rotateLogFile
      rw [h, hacc, hren]
      rfl
    rw [hstep, hcl]
    exact TurboLog.cleanupOldLogFiles_config _ st fs rfl

/-- Witness for C2: three rotated files against a retention bound of 2 —
the cleanup attempts the two oldest and one candidate survives. -/
theorem TurboLog.cleanupOldLogFiles_spec_witness :
    TurboLog.cleanupOldLogFiles TurboLog.stW TurboLog.cfsW =
      (((TurboLog.retentionCandidates TurboLog.stW TurboLog.cfsW).mergeSort
        (fun a b => a.2 ≤ b.2)).map Prod.fst).take
          ((TurboLog.retentionCandidates TurboLog.stW TurboLog.cfsW).length + 1 -
            TurboLog.cfgW.maximumNumberOfFiles) ∧
    TurboLog.retentionCandidates TurboLog.stW TurboLog.cfsW =
      [("/logs/app-1.log".toList, 1), ("/logs/app-2.log".toList, 2),
        ("/logs/app-3.log".toList, 3)] := by
  constructor
  · exact (TurboLog.cleanupOldLogFiles_spec TurboLog.stW TurboLog.cfgW TurboLog.cfsW
      (fun p => digitsVal (p.filter isDig)) rfl (by decide) (fun p => rfl)).2.2.1
  · decide

/-- A suffix that avoids the separator character and survives past it must
already be a suffix of the part after the separator. -/
theorem suffix_through_sep (p xs n : JStr) (c : Char) (hc : c ∉ p)
    (hsuf : p <:+ xs ++ c :: n) : p <:+ n := by
  by_cases hlen : p.length ≤ n.length
  · have hn : n <:+ xs ++ c :: n := ⟨xs ++ [c], by simp⟩
    have hp' : p.reverse <+: (xs ++ c :: n).reverse := List.reverse_prefix.mpr hsuf
    have hn' : n.reverse <+: (xs ++ c :: n).reverse := List.reverse_prefix.mpr hn
    have hle : p.reverse.length ≤ n.reverse.length := by simpa using hlen
    exact List.reverse_prefix.mp (List.prefix_of_prefix_length_le hp' hn' hle)
  · exfalso
    obtain ⟨t, ht⟩ := hsuf
    have hrev : p.reverse ++ t.reverse = n.reverse ++ c :: xs.reverse := by
      have h1 := congrArg List.reverse ht
      rw [List.reverse_append] at h1
      rw [h1, List.reverse_append]
      simp
    rcases List.append_eq_append_iff.mp hrev with ⟨a', ha1, _⟩ | ⟨c', hc1, hc2⟩
    · have : n.reverse.length = p.reverse.length + a'.length := by
        rw [ha1, List.length_append]
      simp only [List.length_reverse] at this
      omega
    · cases c' with
      | nil =>
        have : p.reverse.length = n.reverse.length := by rw [hc1]; simp
        simp only [List.length_reverse] at this
        omega
      | cons d c'' =>
        have hd : d = c := by
          have := hc2
          rw [List.cons_append] at this
          exact (List.cons.injEq .. ▸ this).1.symm
        subst hd
        have hmem : d ∈ p.reverse := by
          rw [hc1]
          exact List.mem_append.mpr (Or.inr (List.mem_cons_self d c''))
        exact hc (List.mem_reverse.mp hmem)

/-- `-latest.log` contains no `/`, so checking it on the full path
`dir/name` is the same as checking it on the bare name. -/
theorem latestSuffix_of_path (dir n : JStr) :
    latestSuffix.isSuffixOf (dir ++ '/' :: n) = latestSuffix.isSuffixOf n := by
  by_cases hn : latestSuffix <:+ n
  · have h2 : latestSuffix <:+ dir ++ '/' :: n := hn.trans ⟨dir ++ ['/'], by simp⟩
    rw [List.isSuffixOf_iff_suffix.mpr h2, List.isSuffixOf_iff_suffix.mpr hn]
  · have h2 : ¬latestSuffix <:+ dir ++ '/' :: n := fun hx =>
      hn (suffix_through_sep latestSuffix dir n '/' (by decide) hx)
    cases hb : latestSuffix.isSuffixOf (dir ++ '/' :: n) with
    | true => exact absurd (List.isSuffixOf_iff_suffix.mp hb) h2
    | false =>
      cases hb2 : latestSuffix.isSuffixOf n with
      | true => exact absurd (List.isSuffixOf_iff_suffix.mp hb2) hn
      | false => rfl

namespace TurboLog

/-- Every path `getLogFiles` returns ends in `.log`. -/
theorem getLogFiles_suffix (st : LogState) (a : Except Unit Bool)
    (l : Except Unit (List JStr)) :
    ∀ p ∈ getLogFiles st a l, logSuffix.isSuffixOf p = true := by
  intro p hp
  unfold getLogFiles at hp
  cases hcfg : st.config with
  | none => rw [hcfg] at hp; simp at hp
  | some cfg =>
    rw [hcfg] at hp
    cases a with
    | error e => simp at hp
    | ok b =>
      cases b with
      | false => simp at hp
      | true =>
        cases l with
        | error e => simp at hp
        | ok files =>
          dsimp only at hp
          obtain ⟨f, hf, rfl⟩ := List.mem_map.mp hp
          have hsf : logSuffix <:+ f :=
            List.isSuffixOf_iff_suffix.mp (List.mem_filter.mp hf).2
          exact List.isSuffixOf_iff_suffix.mpr
            (hsf.trans ⟨cfg.logsDirectory ++ ['/'], by simp⟩)

/-- A successful `statEntry` keeps the path and certifies it is not the
live (`-latest.log`) file. -/
theorem statEntry_eq_some (stat : JStr → Except Unit Nat) (f : JStr)
    (q : JStr × Nat) (h : statEntry stat f = some q) :
    q.1 = f ∧ latestSuffix.isSuffixOf f = false := by
  unfold statEntry at h
  cases hf : latestSuffix.isSuffixOf f with
  | true =>
    rw [hf, if_pos rfl] at h
    exact absurd h (by simp)
  | false =>
    rw [hf, if_neg Bool.false_ne_true] at h
    cases hs : stat f with
    | ok m =>
      rw [hs] at h
      have := (Option.some.injEq .. ▸ h)
      exact ⟨by rw [← this], rfl⟩
    | error e =>
      rw [hs] at h
      exact absurd h (by simp)

end TurboLog

/-- C10: retention never attempts to delete a path that does not end in
`.log`, nor one that ends in `-latest.log`; conversely, when the directory
is readable and stats succeed, the retention candidates are exactly the
listed names ending in `.log` but not in `-latest.log` — no prefix
condition is involved — each prefixed with the logs directory. -/
theorem TurboLog.retention_frame (st : LogState) (c : InternalConfig)
    (fs : TurboLog.CleanupFS) (mt : JStr → Nat) (h : st.config = some c)
    (hstat : ∀ p, fs.statMtime p = Except.ok (mt p)) :
    (∀ p ∈ TurboLog.cleanupOldLogFiles st fs,
      logSuffix.isSuffixOf p = true ∧ latestSuffix.isSuffixOf p = false) ∧
    (∀ files, fs.accessDir = Except.ok true → fs.listing = Except.ok files →
      (TurboLog.retentionCandidates st fs).map Prod.fst =
        (files.filter (fun f =>
          logSuffix.isSuffixOf f && !(latestSuffix.isSuffixOf f))).map
          (fun f => c.logsDirectory ++ '/' :: f)) := by
  refine ⟨?_, ?_⟩
  · intro p hp
    have hclean : TurboLog.cleanupOldLogFiles st fs =
        TurboLog.cleanupLoop c.maximumNumberOfFiles
          ((TurboLog.retentionCandidates st fs).mergeSort (fun a b => a.2 ≤ b.2)) := by
      unfold TurboLog.cleanupOldLogFiles
      rw [h]
    rw [hclean] at hp
    have hp2 := TurboLog.cleanupLoop_subset _ _ p hp
    obtain ⟨q, hq, hq1⟩ := List.mem_map.mp hp2
    have hqc : q ∈ TurboLog.retentionCandidates st fs :=
      (List.mergeSort_perm (TurboLog.retentionCandidates st fs)
        (fun a b => a.2 ≤ b.2)).mem_iff.mp hq
    obtain ⟨f, hfmem, hfe⟩ := List.mem_filterMap.mp hqc
    have hse := TurboLog.statEntry_eq_some fs.statMtime f q hfe
    have hlog := TurboLog.getLogFiles_suffix st fs.accessDir fs.listing f hfmem
    constructor
    · rw [← hq1, hse.1]
      exact hlog
    · rw [← hq1, hse.1]
      exact hse.2
  · intro files hacc hlst
    have hget : TurboLog.getLogFiles st fs.accessDir fs.listing =
        (files.filter (fun f => logSuffix.isSuffixOf f)).map
          (fun f => c.logsDirectory ++ '/' :: f) := by
      unfold TurboLog.getLogFiles
      rw [h, hacc, hlst]
    calc (TurboLog.retentionCandidates st fs).map Prod.fst
        = ((TurboLog.getLogFiles st fs.accessDir fs.listing).filterMap
            (TurboLog.statEntry fs.statMtime)).map Prod.fst := rfl
      _ = (TurboLog.getLogFiles st fs.accessDir fs.listing).filter
            (fun p => !(latestSuffix.isSuffixOf p)) :=
          TurboLog.filterMap_stat_map_fst mt fs.statMtime hstat _
      _ = ((files.filter (fun f => logSuffix.isSuffixOf f)).map
            (fun f => c.logsDirectory ++ '/' :: f)).filter
            (fun p => !(latestSuffix.isSuffixOf p)) := by rw [hget]
      _ = ((files.filter (fun f => logSuffix.isSuffixOf f)).filter
            ((fun p => !(latestSuffix.isSuffixOf p)) ∘
              (fun f => c.logsDirectory ++ '/' :: f))).map
            (fun f => c.logsDirectory ++ '/' :: f) :=
          List.filter_map _ _
      _ = ((files.filter (fun f => logSuffix.isSuffixOf f)).filter
            (fun f => !(latestSuffix.isSuffixOf f))).map
            (fun f => c.logsDirectory ++ '/' :: f) := by
          rw [List.filter_congr (fun x _ => by
            simp only [Function.comp]
            rw [latestSuffix_of_path c.logsDirectory x])]
      _ = (files.filter (fun f =>
            (!(latestSuffix.isSuffixOf f)) && logSuffix.isSuffixOf f)).map
            (fun f => c.logsDirectory ++ '/' :: f) := by
          rw [List.filter_filter]
      _ = (files.filter (fun f =>
            logSuffix.isSuffixOf f && !(latestSuffix.isSuffixOf f))).map
            (fun f => c.logsDirectory ++ '/' :: f) := by
          rw [List.filter_congr (fun x _ => Bool.and_comm _ _)]

/-- Witness for C10: on the concrete listing the candidates are exactly the
three non-live `.log` names, directory-prefixed. -/
theorem TurboLog.retention_frame_witness :
    (TurboLog.retentionCandidates TurboLog.stW TurboLog.cfsW).map Prod.fst =
      ((["app-1.log".toList, "app-2.log".toList, "app-3.log".toList,
        "app-latest.log".toList].filter (fun f =>
          logSuffix.isSuffixOf f && !(latestSuffix.isSuffixOf f))).map
        (fun f => TurboLog.cfgW.logsDirectory ++ '/' :: f)) :=
  (TurboLog.retention_frame TurboLog.stW TurboLog.cfgW TurboLog.cfsW
    (fun p => digitsVal (p.filter isDig)) rfl (fun p => rfl)).2
    ["app-1.log".toList, "app-2.log".toList, "app-3.log".toList,
      "app-latest.log".toList] rfl rfl
